import Mathlib

/-!
Verification of the intent-routing / tool-invocation layer of the MCP agent
(`src/agent.py`) and the vowel-counting capability of the tool provider
(`src/server.py`).

The Python code is shallowly embedded: pure helpers become Lean functions,
the per-clause dispatcher threads the single piece of mutable state
(`user_name`) explicitly, and the external tool-provider session is an
oracle parameter mapping a tool request to the raw reply envelope.
Python's `json` codec and `re` patterns (external libraries) are modelled
faithfully for the exact patterns and payload shapes the agent uses.
An uncaught Python exception (e.g. `TypeError` from indexing a `str`,
`KeyError` from a missing dict key) is modelled as `Option.none`.
-/

namespace MCPAgent

/-! ## Characters and Python string helpers -/

def lbrace : Char := Char.ofNat 123

def rbrace : Char := Char.ofNat 125

def dquote : Char := Char.ofNat 34

def squote : Char := Char.ofNat 39

def bslash : Char := Char.ofNat 92

/-- ASCII whitespace recognized by Python's `str.strip` and `\s`. -/
def isWsChar (c : Char) : Bool :=
  c = ' ' || c = '\t' || c = '\n' || c = '\r' || c = Char.ofNat 11 || c = Char.ofNat 12

/-- Python `str.strip()` on a character list. -/
def pyStripList (cs : List Char) : List Char :=
  ((cs.dropWhile isWsChar).reverse.dropWhile isWsChar).reverse

/-- Python `str.strip()`. -/
def pyStrip (s : String) : String := String.mk (pyStripList s.data)

/-- Python `str.lower()` (ASCII). -/
def pyLower (s : String) : String := String.mk (s.data.map Char.toLower)

/-- Python `str.capitalize()` (ASCII): first character upper, rest lower. -/
def pyCapitalize (s : String) : String :=
  match s.data with
  | [] => ""
  | c :: cs => String.mk (c.toUpper :: cs.map Char.toLower)

def isAsciiLetter (c : Char) : Bool :=
  ('a' ≤ c && c ≤ 'z') || ('A' ≤ c && c ≤ 'Z')

def pyTitleGo : Bool → List Char → List Char
  | _, [] => []
  | prevAlpha, c :: cs =>
    let isAl := isAsciiLetter c
    let c' := if isAl then (if prevAlpha then c.toLower else c.toUpper) else c
    c' :: pyTitleGo isAl cs

/-- Python `str.title()` (ASCII): a letter after a non-letter is uppercased,
other letters lowercased. -/
def pyTitle (s : String) : String := String.mk (pyTitleGo false s.data)

/-- Does `ls` occur as a prefix of `cs`?  If so return the remainder. -/
def dropLit : List Char → List Char → Option (List Char)
  | [], cs => some cs
  | _ :: _, [] => Option.none
  | l :: ls, c :: cs => if c = l then dropLit ls cs else Option.none

def isPrefixList (ls cs : List Char) : Bool := (dropLit ls cs).isSome

/-- Python `needle in haystack` substring test on character lists. -/
def containsList (needle : List Char) : List Char → Bool
  | [] => isPrefixList needle []
  | c :: cs => isPrefixList needle (c :: cs) || containsList needle cs

/-- Python `sep.join(xs)` for a list of strings. -/
def pyJoin (sep : String) : List String → String
  | [] => ""
  | x :: rest => rest.foldl (fun a b => a ++ sep ++ b) x

/-- Python `s.split(",")`: split on every comma, keeping empty segments. -/
def splitCommaList : List Char → List (List Char)
  | [] => [[]]
  | c :: cs =>
    if c = ',' then [] :: splitCommaList cs
    else
      match splitCommaList cs with
      | s :: ss => (c :: s) :: ss
      | [] => [[c]]

/-! ## Python/JSON value model

`PyVal` models the Python values that can come out of `json.loads`
(and the Python `None` returned by `parse_tool_result` for an empty
envelope): `None`, booleans, numbers (exact decimals: mantissa and the
number of decimal places, covering ints and the floats the provider
serializes), strings, lists, and string-keyed dicts. -/

inductive PyVal where
  | none : PyVal
  | bool (b : Bool) : PyVal
  | num (m : Int) (e : Nat) : PyVal
  | str (s : String) : PyVal
  | list (xs : List PyVal) : PyVal
  | dict (kvs : List (String × PyVal)) : PyVal

/-! ### JSON encoder (Modelled from the spec: the JSON text form of a
structured record; Python's `json.dumps`, external to the repository,
restricted to compact separators and the escapes the provider's payloads
need). -/

def digitChar (d : Nat) : Char := Char.ofNat (48 + d)

def encDigits (n : Nat) : List Char :=
  if _h : n < 10 then [digitChar n]
  else encDigits (n / 10) ++ [digitChar (n % 10)]
termination_by n
decreasing_by
  exact Nat.div_lt_self (by omega) (by omega)

/-- The digits of `mag` zero-padded on the left to at least `e + 1` digits. -/
def padDigits (mag e : Nat) : List Char :=
  List.replicate (e + 1 - (encDigits mag).length) '0' ++ encDigits mag

/-- Decimal digits (with the decimal point when `e > 0`) of the magnitude
`mag` with `e` decimal places. -/
def encBody (mag : Nat) (e : Nat) : List Char :=
  if e = 0 then encDigits mag
  else (padDigits mag e).take ((padDigits mag e).length - e) ++
    '.' :: (padDigits mag e).drop ((padDigits mag e).length - e)

/-- Decimal text of the number with mantissa `m` and `e` decimal places. -/
def encNum (m : Int) (e : Nat) : List Char :=
  (if m < 0 then [Char.ofNat 45] else []) ++ encBody m.natAbs e

def escChar (c : Char) : List Char :=
  if c = dquote then [bslash, dquote]
  else if c = bslash then [bslash, bslash]
  else if c = '\n' then [bslash, 'n']
  else if c = '\t' then [bslash, 't']
  else if c = '\r' then [bslash, 'r']
  else [c]

def escape : List Char → List Char
  | [] => []
  | c :: cs => escChar c ++ escape cs

mutual

def dumpsV : PyVal → List Char
  | .none => 'n' :: 'u' :: 'l' :: 'l' :: []
  | .bool true => 't' :: 'r' :: 'u' :: 'e' :: []
  | .bool false => 'f' :: 'a' :: 'l' :: 's' :: 'e' :: []
  | .num m e => encNum m e
  | .str s => dquote :: (escape s.data ++ [dquote])
  | .list xs => '[' :: (dumpsElems xs ++ [']'])
  | .dict kvs => lbrace :: (dumpsPairs kvs ++ [rbrace])

def dumpsElems : List PyVal → List Char
  | [] => []
  | [v] => dumpsV v
  | v :: w :: vs => dumpsV v ++ ',' :: dumpsElems (w :: vs)

def dumpsPairs : List (String × PyVal) → List Char
  | [] => []
  | [(k, v)] => dquote :: (escape k.data ++ dquote :: ':' :: dumpsV v)
  | (k, v) :: p :: ps =>
    (dquote :: (escape k.data ++ dquote :: ':' :: dumpsV v)) ++ ',' :: dumpsPairs (p :: ps)

end

def dumps (v : PyVal) : String := String.mk (dumpsV v)

/-! ### JSON parser (Modelled from the spec: "attempt to parse the
concatenated text as a structured record"; Python's `json.loads`,
external to the repository, on the whitespace-stripped text the decoder
feeds it). -/

def isDigitCh (c : Char) : Bool := '0' ≤ c && c ≤ '9'

def digitVal (c : Char) : Nat := c.toNat - 48

def digitsToNat (ds : List Char) : Nat := ds.foldl (fun a c => 10 * a + digitVal c) 0

def parseNumCore (neg : Bool) (cs1 : List Char) : Option (PyVal × List Char) :=
  let d1 := cs1.takeWhile isDigitCh
  let r1 := cs1.dropWhile isDigitCh
  if d1 = [] then Option.none
  else if r1.head? = some '.' then
    let d2 := r1.tail.takeWhile isDigitCh
    let r3 := r1.tail.dropWhile isDigitCh
    if d2 = [] then Option.none
    else
      some (.num (cond neg (-(digitsToNat (d1 ++ d2) : Int)) (digitsToNat (d1 ++ d2) : Int))
        d2.length, r3)
  else some (.num (cond neg (-(digitsToNat d1 : Int)) (digitsToNat d1 : Int)) 0, r1)

def parseNum (cs : List Char) : Option (PyVal × List Char) :=
  match cs with
  | [] => Option.none
  | c :: cs' =>
    if c = Char.ofNat 45 then parseNumCore true cs' else parseNumCore false (c :: cs')

def unescChar (c : Char) : Option Char :=
  if c = dquote then some dquote
  else if c = bslash then some bslash
  else if c = 'n' then some '\n'
  else if c = 't' then some '\t'
  else if c = 'r' then some '\r'
  else Option.none

def parseStrBody : List Char → Option (List Char × List Char)
  | [] => Option.none
  | c :: cs =>
    if c = dquote then some ([], cs)
    else if c = bslash then
      match cs with
      | [] => Option.none
      | e :: cs2 =>
        match unescChar e with
        | some d => (parseStrBody cs2).map (fun p => (d :: p.1, p.2))
        | Option.none => Option.none
    else (parseStrBody cs).map (fun p => (c :: p.1, p.2))

mutual

def parseVal : Nat → List Char → Option (PyVal × List Char)
  | 0, _ => Option.none
  | _ + 1, [] => Option.none
  | fuel + 1, c :: r =>
    if c = 'n' then (dropLit ('u' :: 'l' :: 'l' :: []) r).map (fun t => (.none, t))
    else if c = 't' then (dropLit ('r' :: 'u' :: 'e' :: []) r).map (fun t => (.bool true, t))
    else if c = 'f' then (dropLit ('a' :: 'l' :: 's' :: 'e' :: []) r).map (fun t => (.bool false, t))
    else if c = dquote then (parseStrBody r).map (fun p => (.str (String.mk p.1), p.2))
    else if c = '[' then
      match r with
      | [] => Option.none
      | d :: t =>
        if d = ']' then some (.list [], t)
        else (parseElems fuel (d :: t)).map (fun p => (.list p.1, p.2))
    else if c = lbrace then
      match r with
      | [] => Option.none
      | d :: t =>
        if d = rbrace then some (.dict [], t)
        else (parsePairs fuel (d :: t)).map (fun p => (.dict p.1, p.2))
    else parseNum (c :: r)

def parseElems : Nat → List Char → Option (List PyVal × List Char)
  | 0, _ => Option.none
  | fuel + 1, cs =>
    match parseVal fuel cs with
    | Option.none => Option.none
    | some (v, r) =>
      match r with
      | ',' :: t => (parseElems fuel t).map (fun p => (v :: p.1, p.2))
      | ']' :: t => some ([v], t)
      | _ => Option.none

def parsePairs : Nat → List Char → Option (List (String × PyVal) × List Char)
  | 0, _ => Option.none
  | fuel + 1, cs =>
    match cs with
    | [] => Option.none
    | c :: r =>
      if c = dquote then
        match parseStrBody r with
        | Option.none => Option.none
        | some (k, r1) =>
          match r1 with
          | ':' :: r2 =>
            match parseVal fuel r2 with
            | Option.none => Option.none
            | some (v, r3) =>
              match r3 with
              | ',' :: t => (parsePairs fuel t).map (fun p => ((String.mk k, v) :: p.1, p.2))
              | d :: t => if d = rbrace then some ([(String.mk k, v)], t) else Option.none
              | [] => Option.none
          | _ => Option.none
      else Option.none

end

/-- Python `json.loads` on the (already stripped) text: the whole input
must be consumed. -/
def loads (s : String) : Option PyVal :=
  match parseVal (s.length + 1) s.data with
  | some (v, []) => some v
  | _ => Option.none

/-! Fuel measure for the parser: an upper bound on the recursion depth the
parser needs on the encoding of a value. -/

mutual

def jsizeV : PyVal → Nat
  | .none => 1
  | .bool _ => 1
  | .num _ _ => 1
  | .str _ => 1
  | .list xs => 1 + jsizeL xs
  | .dict kvs => 1 + jsizeP kvs

def jsizeL : List PyVal → Nat
  | [] => 0
  | v :: vs => 1 + jsizeV v + jsizeL vs

def jsizeP : List (String × PyVal) → Nat
  | [] => 0
  | (_, v) :: ps => 1 + jsizeV v + jsizeP ps

end

/-- The head of `ys` (if any) falsifies `p`. -/
def NotHead (p : Char → Bool) : List Char → Prop
  | [] => True
  | c :: _ => p c = false

/-- What may legally follow an encoded JSON value: nothing, or a character
that cannot extend a number. -/
def RestOk : List Char → Prop
  | [] => True
  | c :: _ => isDigitCh c = false ∧ c ≠ '.'

/-! ### Rendering Python values into f-strings -/

mutual

/-- Python `repr` of a value (ASCII model; strings quoted without
re-escaping, numbers in decimal — the forms the provider emits). -/
def pyRepr : PyVal → List Char
  | .none => 'N' :: 'o' :: 'n' :: 'e' :: []
  | .bool true => 'T' :: 'r' :: 'u' :: 'e' :: []
  | .bool false => 'F' :: 'a' :: 'l' :: 's' :: 'e' :: []
  | .num m e => encNum m e
  | .str s => squote :: (s.data ++ [squote])
  | .list xs => '[' :: (pyReprElems xs ++ [']'])
  | .dict kvs => lbrace :: (pyReprPairs kvs ++ [rbrace])

def pyReprElems : List PyVal → List Char
  | [] => []
  | [v] => pyRepr v
  | v :: w :: vs => pyRepr v ++ ',' :: ' ' :: pyReprElems (w :: vs)

def pyReprPairs : List (String × PyVal) → List Char
  | [] => []
  | [(k, v)] => squote :: (k.data ++ squote :: ':' :: ' ' :: pyRepr v)
  | (k, v) :: p :: ps =>
    (squote :: (k.data ++ squote :: ':' :: ' ' :: pyRepr v)) ++ ',' :: ' ' :: pyReprPairs (p :: ps)

end

/-- Python `str(v)` as used inside an f-string field. -/
def pyStr (v : PyVal) : String :=
  match v with
  | .str s => s
  | _ => String.mk (pyRepr v)

/-- Python dict lookup on the association list underlying a `.dict`. -/
def lookupKey : List (String × PyVal) → String → Option PyVal
  | [], _ => Option.none
  | (k, v) :: rest, key => if k = key then some v else lookupKey rest key

/-- Python `v[key]`: `Option.none` models the `TypeError`/`KeyError` raised
when `v` is not a dict or the key is missing. -/
def pyGet (v : PyVal) (key : String) : Option PyVal :=
  match v with
  | .dict kvs => lookupKey kvs key
  | _ => Option.none

/-- The strings of a list of Python values; `Option.none` as soon as one
element is not a string (the `TypeError` `str.join` raises). -/
def allStrs : List PyVal → Option (List String)
  | [] => some []
  | PyVal.str s :: rest => (allStrs rest).map (fun l => s :: l)
  | _ => Option.none

/-- Python `sep.join(v)`: defined for a list of strings (and for a string,
which joins its characters); anything else raises (`Option.none`). -/
def pyJoinVal (sep : String) (v : PyVal) : Option String :=
  match v with
  | .list xs => (allStrs xs).map (pyJoin sep)
  | .str s => some (pyJoin sep (s.data.map (fun c => String.mk [c])))
  | _ => Option.none

/-! ## Result decoder (`parse_tool_result`, src/agent.py lines 42-53)

The envelope is `Option (List (Option String))`: `Option.none` for a falsy
`result`, a list of content fragments otherwise, each fragment carrying
`some text` when it has a `text` attribute. -/

def parse_tool_result (result : Option (List (Option String))) : PyVal :=
  match result with
  | Option.none => .none
  | some [] => .none
  | some frags =>
    let texts := frags.filterMap id
    let text := pyStrip (pyJoin "\n" texts)
    match loads text with
    | some v => v
    | Option.none => .str text

/-! ## Argument extraction (src/agent.py) -/

/-- The character class `[a-zA-Z\s]` of the city regex. -/
def cityClassCh (c : Char) : Bool := isAsciiLetter c || isWsChar c

/-- One attempt of `(?:in|at)\s+([a-zA-Z\s]+)` just after the `in`/`at`
literal: `\s+` (greedy, backtracking) then the greedy capture group. -/
def groupAfterKw (cs : List Char) : Option (List Char) :=
  let run := cs.takeWhile cityClassCh
  let ws := run.takeWhile isWsChar
  if ws = [] then Option.none
  else if run.length < 2 then Option.none
  else if ws.length = run.length then some (run.drop (run.length - 1))
  else some (run.drop ws.length)

/-- `re.search` scan for the city pattern: leftmost position wins. -/
def searchCityList : List Char → Option (List Char)
  | [] => Option.none
  | c :: cs =>
    let hit :=
      if c = 'i' && cs.head? = some 'n' then groupAfterKw cs.tail
      else if c = 'a' && cs.head? = some 't' then groupAfterKw cs.tail
      else Option.none
    match hit with
    | some g => some g
    | Option.none => searchCityList cs

/-- `extract_city` (src/agent.py lines 37-39): `match.group(1).strip()` when
the pattern matches, else `None`. -/
def extract_city (text : String) : Option String :=
  (searchCityList text.data).map (fun g => String.mk (pyStripList g))

/-- Python `\w` (ASCII part). -/
def wordCh (c : Char) : Bool :=
  isAsciiLetter c || ('0' ≤ c && c ≤ '9') || c = '_'

def setNamePat : List Char := "my name is ".data

/-- One attempt of `re.search(r"my name is (\w+)", p)` at the current
position: the literal, then a non-empty greedy `\w+` capture. -/
def setNameAt (cs : List Char) : Option (List Char) :=
  match dropLit setNamePat cs with
  | some rest =>
    let w := rest.takeWhile wordCh
    if w = [] then Option.none else some w
  | Option.none => Option.none

/-- `re.search` scan for the name pattern: leftmost match wins. -/
def findSetName : List Char → Option (List Char)
  | [] => Option.none
  | c :: cs =>
    match setNameAt (c :: cs) with
    | some w => some w
    | Option.none => findSetName cs

/-- One step of `re.sub(r"(vowels?|count|in|:)", "", p)`: try the
alternatives in the regex's order at the current position. -/
def tryVowelPats (cs : List Char) : Option (List Char) :=
  match dropLit "vowels".data cs with
  | some r => some r
  | Option.none =>
  match dropLit "vowel".data cs with
  | some r => some r
  | Option.none =>
  match dropLit "count".data cs with
  | some r => some r
  | Option.none =>
  match dropLit "in".data cs with
  | some r => some r
  | Option.none =>
  match dropLit ":".data cs with
  | some r => some r
  | Option.none => Option.none

/-- The left-to-right, non-overlapping `re.sub(..., "", p)` scan, with
explicit fuel (each step shortens the text, so `length` fuel suffices). -/
def vowelScrubGo : Nat → List Char → List Char
  | 0, _ => []
  | _ + 1, [] => []
  | fuel + 1, c :: cs =>
    match tryVowelPats (c :: cs) with
    | some r => vowelScrubGo fuel r
    | Option.none => c :: vowelScrubGo fuel cs

/-- The whole `re.sub(r"(vowels?|count|in|:)", "", p)` substitution. -/
def vowelScrub (cs : List Char) : List Char := vowelScrubGo cs.length cs

/-! ## Dispatcher (the per-clause routing of `main`, src/agent.py
lines 73-186)

The external tool-provider session is an oracle from a request to the raw
reply envelope.  A clause's outcome records the conversation state after
the clause, the rendered reply (`Option.none` when the Python code would
raise an uncaught exception), and the tool calls issued. -/

inductive ToolReq where
  | getWeather (city : String) : ToolReq
  | countVowels (text : String) : ToolReq
  | systemDiagnostics (detail : String) : ToolReq
deriving DecidableEq

def Oracle : Type := ToolReq → Option (List (Option String))

structure ClauseOut where
  state : Option String
  reply : Option String
  calls : List ToolReq
deriving DecidableEq

def greetingMsg : String := "Hi there! 😊 How can I help you?"

def fallbackMsg : String :=
  "Sorry, I don’t have access to that information with my current tools."

def specifyCityMsg : String := "Please specify a city (e.g., weather in guntur)."

def giveWordMsg : String := "Please give a word (e.g., vowels in terralogic)."

def sq : String := String.mk [squote]

def weatherKws : List String := ["weather", "climate", "temperature", "wind"]

def systemKws : List String := ["cpu", "memory", "ram", "disk", "system", "os"]

def containsAny (p : String) (kws : List String) : Bool :=
  kws.any (fun k => containsList k.data p.data)

/-- The weather rendering (lines 108-115): shape IS checked here; a dict
missing a key still raises `KeyError` (`Option.none`). -/
def weatherRender (city : String) (data : PyVal) : Option String :=
  match data with
  | .dict kvs =>
    match lookupKey kvs "temperature_c", lookupKey kvs "wind_speed" with
    | some t, some w =>
      some ("🌤 Weather in " ++ pyTitle city ++ ":\n• Temperature: " ++ pyStr t ++
        " °C\n• Wind Speed: " ++ pyStr w ++ " km/h")
    | _, _ => Option.none
  | _ => some ("Weather info: " ++ pyStr data)

/-- The vowel rendering (lines 131-134): NO shape check — `data['vowel_count']`
on a non-dict raises, as does a missing key or an unjoinable `vowels`. -/
def vowelRender (word : String) (data : PyVal) : Option String :=
  match pyGet data "vowel_count", pyGet data "vowels" with
  | some cnt, some vs =>
    (pyJoinVal ", " vs).map (fun letters =>
      "🔤 Vowels in " ++ sq ++ word ++ sq ++ ": " ++ pyStr cnt ++ "\n• Letters: " ++ letters)
  | _, _ => Option.none

/-- The system rendering (lines 145-178): NO shape check in any sub-branch. -/
def sysRender (p : String) (data : PyVal) : Option String :=
  if containsList "cpu".data p.data then
    match pyGet data "cpu_usage_percent", pyGet data "cpu_physical_cores",
        pyGet data "cpu_logical_cores" with
    | some u, some ph, some lo =>
      some ("⚙ CPU Info:\n• Usage: " ++ pyStr u ++ "%\n• Physical cores: " ++ pyStr ph ++
        "\n• Logical cores: " ++ pyStr lo)
    | _, _, _ => Option.none
  else if containsList "memory".data p.data || containsList "ram".data p.data then
    match pyGet data "memory_total_gb", pyGet data "memory_used_gb",
        pyGet data "memory_free_gb", pyGet data "memory_usage_percent" with
    | some t, some u, some f, some pc =>
      some ("🧠 Memory Info:\n• Total: " ++ pyStr t ++ " GB\n• Used: " ++ pyStr u ++
        " GB\n• Free: " ++ pyStr f ++ " GB\n• Usage: " ++ pyStr pc ++ "%")
    | _, _, _, _ => Option.none
  else if containsList "disk".data p.data then
    match pyGet data "disk_total_gb", pyGet data "disk_used_gb", pyGet data "disk_free_gb" with
    | some t, some u, some f =>
      some ("💾 Disk Info:\n• Total: " ++ pyStr t ++ " GB\n• Used: " ++ pyStr u ++
        " GB\n• Free: " ++ pyStr f ++ " GB")
    | _, _, _ => Option.none
  else
    match pyGet data "os", pyGet data "os_version", pyGet data "architecture",
        pyGet data "system_uptime_hours" with
    | some o, some ov, some ar, some up =>
      some ("🖥 System Info:\n• OS: " ++ pyStr o ++ " " ++ pyStr ov ++ "\n• Architecture: " ++
        pyStr ar ++ "\n• Uptime: " ++ pyStr up ++ " hours")
    | _, _, _, _ => Option.none

/-- The weather / vowel / system / fallback branches, reached when none of
the greeting and name branches fired (lines 96-184). -/
def toolBranches (oracle : Oracle) (st : Option String) (p : String) : ClauseOut :=
  if containsAny p weatherKws then
    match extract_city p with
    | Option.none => ⟨st, some specifyCityMsg, []⟩
    | some city =>
      if city = "" then ⟨st, some specifyCityMsg, []⟩
      else
        let req := ToolReq.getWeather city
        ⟨st, weatherRender city (parse_tool_result (oracle req)), [req]⟩
  else if containsList "vowel".data p.data then
    let word := String.mk (pyStripList (vowelScrub p.data))
    if word = "" then ⟨st, some giveWordMsg, []⟩
    else
      let req := ToolReq.countVowels word
      ⟨st, vowelRender word (parse_tool_result (oracle req)), [req]⟩
  else if containsAny p systemKws then
    let req := ToolReq.systemDiagnostics p
    ⟨st, sysRender p (parse_tool_result (oracle req)), [req]⟩
  else ⟨st, some fallbackMsg, []⟩

/-- One clause of the dispatcher loop (lines 76-184): `p = part.lower()`,
then greeting, SetName, QueryName, and the tool branches in order. -/
def processClause (oracle : Oracle) (st : Option String) (part : String) : ClauseOut :=
  let p := pyLower part
  if p = "hi" ∨ p = "hello" ∨ p = "hey" then ⟨st, some greetingMsg, []⟩
  else
    match findSetName p.data with
    | some w =>
      let nm := pyCapitalize (String.mk w)
      ⟨some nm, some ("Nice to meet you, " ++ nm ++ "! 😊"), []⟩
    | Option.none =>
      match st with
      | some nm =>
        if containsList "my name".data p.data then
          ⟨st, some ("Your name is " ++ nm ++ "."), []⟩
        else toolBranches oracle st p
      | Option.none => toolBranches oracle st p

/-- The utterance segmenter (line 73):
`[p.strip() for p in user_input.split(",") if p.strip()]`. -/
def segmentClauses (s : String) : List String :=
  ((splitCommaList s.data).map (fun cs => String.mk (pyStripList cs))).filter
    (fun x => x ≠ "")

structure TurnOut where
  state : Option String
  replies : Option (List String)
  calls : List ToolReq

/-- Fold of the dispatcher over the clauses of one turn; an uncaught
exception in a clause aborts the rest of the turn (`replies = none`). -/
def processParts (oracle : Oracle) (st : Option String) : List String → TurnOut
  | [] => ⟨st, some [], []⟩
  | part :: rest =>
    let c := processClause oracle st part
    match c.reply with
    | Option.none => ⟨c.state, Option.none, c.calls⟩
    | some r =>
      let t := processParts oracle c.state rest
      ⟨t.state, t.replies.map (fun rs => r :: rs), c.calls ++ t.calls⟩

def processTurn (oracle : Oracle) (st : Option String) (input : String) : TurnOut :=
  processParts oracle st (segmentClauses input)

/-- The printed response of a turn: `"\n\n".join(responses)` (line 186). -/
def turnOutput (t : TurnOut) : Option String := t.replies.map (pyJoin "\n\n")

/-! ## The vowel-counting capability (src/server.py lines 64-73) -/

structure VowelOutput where
  vowel_count : Nat
  vowels : List Char
deriving DecidableEq

def vowelChars : List Char := ['a', 'e', 'i', 'o', 'u']

def count_vowels (text : String) : VowelOutput :=
  let vowels := (pyLower text).data.filter (fun ch => vowelChars.contains ch)
  ⟨vowels.length, vowels⟩

/-! ## Well-shaped tool replies

`replyOk req data` states that the decoded reply `data` has the record
shape the renderer of `req`'s capability dereferences (the weather path is
the only one that also tolerates a non-record reply). -/

def isStrVal : PyVal → Bool
  | .str _ => true
  | _ => false

def vowelsJoinable : PyVal → Bool
  | .list xs => xs.all isStrVal
  | _ => false

/-- Every key some system sub-branch dereferences. -/
def sysKeys : List String :=
  ["cpu_usage_percent", "cpu_physical_cores", "cpu_logical_cores",
   "memory_total_gb", "memory_used_gb", "memory_free_gb", "memory_usage_percent",
   "disk_total_gb", "disk_used_gb", "disk_free_gb",
   "os", "os_version", "architecture", "system_uptime_hours"]

def replyOk : ToolReq → PyVal → Bool
  | .getWeather _, data =>
    match data with
    | .dict kvs =>
      (lookupKey kvs "temperature_c").isSome && (lookupKey kvs "wind_speed").isSome
    | _ => true
  | .countVowels _, data =>
    (pyGet data "vowel_count").isSome &&
      (match pyGet data "vowels" with
       | some vs => vowelsJoinable vs
       | Option.none => false)
  | .systemDiagnostics _, data => sysKeys.all (fun k => (pyGet data k).isSome)

/-- Every reply the provider sends decodes to a shape its renderer can
dereference. -/
def goodOracle (o : Oracle) : Prop :=
  ∀ req, replyOk req (parse_tool_result (o req)) = true

/-- A structured reply carrying every key any renderer dereferences. -/
def allKeysDict : PyVal :=
  PyVal.dict [("temperature_c", PyVal.num 0 0), ("wind_speed", PyVal.num 0 0),
    ("vowel_count", PyVal.num 0 0), ("vowels", PyVal.list []),
    ("cpu_usage_percent", PyVal.num 0 0), ("cpu_physical_cores", PyVal.num 0 0),
    ("cpu_logical_cores", PyVal.num 0 0), ("memory_total_gb", PyVal.num 0 0),
    ("memory_used_gb", PyVal.num 0 0), ("memory_free_gb", PyVal.num 0 0),
    ("memory_usage_percent", PyVal.num 0 0), ("disk_total_gb", PyVal.num 0 0),
    ("disk_used_gb", PyVal.num 0 0), ("disk_free_gb", PyVal.num 0 0),
    ("os", PyVal.str "linux"), ("os_version", PyVal.str "6"),
    ("architecture", PyVal.str "x86"), ("system_uptime_hours", PyVal.num 0 0)]

def allKeysOracle : Oracle := fun _ => some [some (dumps allKeysDict)]

/-! ## Lemmas: prefix dropping and character runs -/

theorem dropLit_self_append (ls r : List Char) : dropLit ls (ls ++ r) = some r := by
  induction ls with
  | nil => rfl
  | cons l ls ih => simp [dropLit, ih]

theorem dropLit_eq_append {ls cs r : List Char} (h : dropLit ls cs = some r) :
    cs = ls ++ r := by
  induction ls generalizing cs with
  | nil => simp [dropLit] at h; simp [h]
  | cons l ls ih =>
    cases cs with
    | nil => simp [dropLit] at h
    | cons c cs =>
      by_cases hc : c = l
      · subst hc; simp [dropLit] at h; simp [ih h]
      · simp [dropLit, hc] at h

theorem takeWhile_append_all (p : Char → Bool) (xs ys : List Char)
    (h1 : ∀ c ∈ xs, p c = true) (h2 : NotHead p ys) :
    (xs ++ ys).takeWhile p = xs ∧ (xs ++ ys).dropWhile p = ys := by
  induction xs with
  | nil =>
    simp only [List.nil_append]
    cases ys with
    | nil => simp
    | cons y ys =>
      have : p y = false := h2
      simp [List.takeWhile_cons, List.dropWhile_cons, this]
  | cons x xs ih =>
    have hx : p x = true := h1 x (by simp)
    have hrec := ih (fun c hc => h1 c (by simp [hc]))
    simp [List.takeWhile_cons, List.dropWhile_cons, hx, hrec.1, hrec.2]

/-! ## Lemmas: decimal digits round-trip -/

theorem encDigits_ne_nil (n : Nat) : encDigits n ≠ [] := by
  rw [encDigits]; split <;> simp

theorem isDigitCh_digitChar {d : Nat} (h : d < 10) : isDigitCh (digitChar d) = true := by
  interval_cases d <;> decide

theorem digitVal_digitChar {d : Nat} (h : d < 10) : digitVal (digitChar d) = d := by
  interval_cases d <;> decide

theorem encDigits_digits (n : Nat) : ∀ c ∈ encDigits n, isDigitCh c = true := by
  induction n using Nat.strong_induction_on with
  | _ n ih =>
    rw [encDigits]
    split
    · intro c hc
      simp at hc
      subst hc
      exact isDigitCh_digitChar (by omega)
    · intro c hc
      rcases List.mem_append.1 hc with h | h
      · exact ih (n / 10) (Nat.div_lt_self (by omega) (by omega)) c h
      · simp at h
        subst h
        exact isDigitCh_digitChar (Nat.mod_lt _ (by omega))

theorem digitsToNat_append_single (ds : List Char) (c : Char) :
    digitsToNat (ds ++ [c]) = 10 * digitsToNat ds + digitVal c := by
  simp [digitsToNat, List.foldl_append]

theorem digitsToNat_encDigits (n : Nat) : digitsToNat (encDigits n) = n := by
  induction n using Nat.strong_induction_on with
  | _ n ih =>
    rw [encDigits]
    split
    · rename_i h
      simp [digitsToNat, digitVal_digitChar h]
    · rename_i h
      rw [digitsToNat_append_single, ih (n / 10) (Nat.div_lt_self (by omega) (by omega)),
        digitVal_digitChar (Nat.mod_lt _ (by omega))]
      omega

theorem digitsToNat_cons_zero (t : List Char) : digitsToNat ('0' :: t) = digitsToNat t := rfl

theorem digitsToNat_replicate_zero (k : Nat) (xs : List Char) :
    digitsToNat (List.replicate k '0' ++ xs) = digitsToNat xs := by
  induction k with
  | zero => simp
  | succ k ih => rw [List.replicate_succ, List.cons_append, digitsToNat_cons_zero, ih]

theorem restOk_notHead {rest : List Char} (hr : RestOk rest) : NotHead isDigitCh rest := by
  cases rest with
  | nil => trivial
  | cons c t => exact hr.1

theorem restOk_head_ne_dot {rest : List Char} (hr : RestOk rest) :
    ¬ rest.head? = some '.' := by
  cases rest with
  | nil => simp
  | cons c t => simp; exact hr.2

/-! ## Lemmas: number codec round-trip -/

theorem notHead_dot (xs : List Char) : NotHead isDigitCh ('.' :: xs) := by
  show isDigitCh '.' = false
  decide

theorem encDigits_len_pos (mag : Nat) : 1 ≤ (encDigits mag).length := by
  cases h : encDigits mag with
  | nil => exact absurd h (encDigits_ne_nil mag)
  | cons _ _ => simp

theorem padDigits_digits (mag e : Nat) : ∀ c ∈ padDigits mag e, isDigitCh c = true := by
  intro c hc
  rcases List.mem_append.1 hc with h | h
  · have := List.eq_of_mem_replicate h
    subst this
    decide
  · exact encDigits_digits mag c h

theorem padDigits_len (mag e : Nat) : e + 1 ≤ (padDigits mag e).length := by
  have := encDigits_len_pos mag
  rw [padDigits]
  simp
  omega

theorem digitsToNat_padDigits (mag e : Nat) : digitsToNat (padDigits mag e) = mag := by
  rw [padDigits, digitsToNat_replicate_zero, digitsToNat_encDigits]

theorem encBody_head (mag e : Nat) : ∃ c t, encBody mag e = c :: t ∧ isDigitCh c = true := by
  by_cases he : e = 0
  · cases h : encDigits mag with
    | nil => exact absurd h (encDigits_ne_nil mag)
    | cons c t =>
      refine ⟨c, t, ?_, encDigits_digits mag c (by rw [h]; simp)⟩
      rw [encBody, if_pos he, h]
  · have hL := padDigits_len mag e
    have htlen : ((padDigits mag e).take ((padDigits mag e).length - e)).length
        = (padDigits mag e).length - e := by
      rw [List.length_take]
      omega
    cases h : (padDigits mag e).take ((padDigits mag e).length - e) with
    | nil =>
      rw [h] at htlen
      simp at htlen
      omega
    | cons c t =>
      refine ⟨c, t ++ '.' :: (padDigits mag e).drop ((padDigits mag e).length - e), ?_,
        padDigits_digits mag e c (List.take_subset _ _ (by rw [h]; simp))⟩
      rw [encBody, if_neg he, h]
      simp

theorem parseNumCore_enc (mag e : Nat) (neg : Bool) {rest : List Char} (hr : RestOk rest) :
    parseNumCore neg (encBody mag e ++ rest) =
      some (.num (cond neg (-(mag : Int)) (mag : Int)) e, rest) := by
  by_cases he : e = 0
  · subst he
    rw [encBody, if_pos rfl]
    have hsplit :=
      takeWhile_append_all isDigitCh (encDigits mag) rest (encDigits_digits mag)
        (restOk_notHead hr)
    simp only [parseNumCore, hsplit.1, hsplit.2]
    rw [if_neg (encDigits_ne_nil mag), if_neg (restOk_head_ne_dot hr), digitsToNat_encDigits]
  · rw [encBody, if_neg he]
    have hL := padDigits_len mag e
    have hassoc : ((padDigits mag e).take ((padDigits mag e).length - e) ++
          '.' :: (padDigits mag e).drop ((padDigits mag e).length - e)) ++ rest
        = (padDigits mag e).take ((padDigits mag e).length - e) ++
          '.' :: ((padDigits mag e).drop ((padDigits mag e).length - e) ++ rest) := by simp
    rw [hassoc]
    have h1 := takeWhile_append_all isDigitCh
      ((padDigits mag e).take ((padDigits mag e).length - e))
      ('.' :: ((padDigits mag e).drop ((padDigits mag e).length - e) ++ rest))
      (fun c hc => padDigits_digits mag e c (List.take_subset _ _ hc))
      (notHead_dot ((padDigits mag e).drop ((padDigits mag e).length - e) ++ rest))
    have h2 := takeWhile_append_all isDigitCh
      ((padDigits mag e).drop ((padDigits mag e).length - e)) rest
      (fun c hc => padDigits_digits mag e c (List.drop_subset _ _ hc)) (restOk_notHead hr)
    simp only [parseNumCore, h1.1, h1.2]
    have htlen : ((padDigits mag e).take ((padDigits mag e).length - e)).length
        = (padDigits mag e).length - e := by
      rw [List.length_take]
      omega
    have htneq : (padDigits mag e).take ((padDigits mag e).length - e) ≠ [] := by
      intro hnil
      rw [hnil] at htlen
      simp at htlen
      omega
    rw [if_neg htneq, if_pos (by simp)]
    simp only [List.tail_cons, h2.1, h2.2]
    have hdlen : ((padDigits mag e).drop ((padDigits mag e).length - e)).length = e := by
      rw [List.length_drop]
      omega
    have hdneq : (padDigits mag e).drop ((padDigits mag e).length - e) ≠ [] := by
      intro hnil
      rw [hnil] at hdlen
      simp at hdlen
      omega
    rw [if_neg hdneq]
    have hval : digitsToNat ((padDigits mag e).take ((padDigits mag e).length - e) ++
        (padDigits mag e).drop ((padDigits mag e).length - e)) = mag := by
      rw [List.take_append_drop, digitsToNat_padDigits]
    rw [hval, hdlen]

theorem parseNum_enc (m : Int) (e : Nat) {rest : List Char} (hr : RestOk rest) :
    parseNum (encNum m e ++ rest) = some (.num m e, rest) := by
  rw [encNum]
  by_cases hm : m < 0
  · rw [if_pos hm]
    simp only [List.cons_append, List.nil_append, List.append_assoc]
    have hstep : parseNum (Char.ofNat 45 :: (encBody m.natAbs e ++ rest)) =
        parseNumCore true (encBody m.natAbs e ++ rest) := rfl
    rw [hstep, parseNumCore_enc m.natAbs e true hr]
    simp only [Bool.cond_true]
    have hval : -(m.natAbs : Int) = m := by omega
    rw [hval]
  · rw [if_neg hm]
    simp only [List.nil_append]
    obtain ⟨c, t, hct, hcd⟩ := encBody_head m.natAbs e
    rw [hct, List.cons_append]
    have hcne : c ≠ Char.ofNat 45 := by
      intro hh
      rw [hh] at hcd
      exact absurd hcd (by decide)
    simp only [parseNum, if_neg hcne]
    rw [← List.cons_append, ← hct, parseNumCore_enc m.natAbs e false hr]
    simp only [Bool.cond_false]
    have hval : (m.natAbs : Int) = m := by omega
    rw [hval]

/-! ## Lemmas: string body round-trip -/

theorem parseStrBody_escape (cs rest : List Char) :
    parseStrBody (escape cs ++ dquote :: rest) = some (cs, rest) := by
  induction cs with
  | nil =>
    rw [show escape [] ++ dquote :: rest = dquote :: rest from rfl, parseStrBody.eq_def]
    simp
  | cons c cs ih =>
    show parseStrBody ((escChar c ++ escape cs) ++ dquote :: rest) = _
    rw [List.append_assoc]
    by_cases h1 : c = dquote
    · subst h1
      rw [show escChar dquote = [bslash, dquote] from rfl]
      rw [show ([bslash, dquote] : List Char) ++ (escape cs ++ dquote :: rest) =
        bslash :: dquote :: (escape cs ++ dquote :: rest) from rfl]
      rw [show parseStrBody (bslash :: dquote :: (escape cs ++ dquote :: rest)) =
        (parseStrBody (escape cs ++ dquote :: rest)).map (fun p => (dquote :: p.1, p.2)) from rfl]
      rw [ih]
      rfl
    · by_cases h2 : c = bslash
      · subst h2
        rw [show escChar bslash = [bslash, bslash] from rfl]
        rw [show ([bslash, bslash] : List Char) ++ (escape cs ++ dquote :: rest) =
          bslash :: bslash :: (escape cs ++ dquote :: rest) from rfl]
        rw [show parseStrBody (bslash :: bslash :: (escape cs ++ dquote :: rest)) =
          (parseStrBody (escape cs ++ dquote :: rest)).map (fun p => (bslash :: p.1, p.2))
          from rfl]
        rw [ih]
        rfl
      · by_cases h3 : c = '\n'
        · subst h3
          rw [show escChar '\n' = [bslash, 'n'] from rfl]
          rw [show ([bslash, 'n'] : List Char) ++ (escape cs ++ dquote :: rest) =
            bslash :: 'n' :: (escape cs ++ dquote :: rest) from rfl]
          rw [show parseStrBody (bslash :: 'n' :: (escape cs ++ dquote :: rest)) =
            (parseStrBody (escape cs ++ dquote :: rest)).map (fun p => ('\n' :: p.1, p.2))
            from rfl]
          rw [ih]
          rfl
        · by_cases h4 : c = '\t'
          · subst h4
            rw [show escChar '\t' = [bslash, 't'] from rfl]
            rw [show ([bslash, 't'] : List Char) ++ (escape cs ++ dquote :: rest) =
              bslash :: 't' :: (escape cs ++ dquote :: rest) from rfl]
            rw [show parseStrBody (bslash :: 't' :: (escape cs ++ dquote :: rest)) =
              (parseStrBody (escape cs ++ dquote :: rest)).map (fun p => ('\t' :: p.1, p.2))
              from rfl]
            rw [ih]
            rfl
          · by_cases h5 : c = '\r'
            · subst h5
              rw [show escChar '\r' = [bslash, 'r'] from rfl]
              rw [show ([bslash, 'r'] : List Char) ++ (escape cs ++ dquote :: rest) =
                bslash :: 'r' :: (escape cs ++ dquote :: rest) from rfl]
              rw [show parseStrBody (bslash :: 'r' :: (escape cs ++ dquote :: rest)) =
                (parseStrBody (escape cs ++ dquote :: rest)).map (fun p => ('\r' :: p.1, p.2))
                from rfl]
              rw [ih]
              rfl
            · rw [show escChar c = [c] from by
                rw [escChar, if_neg h1, if_neg h2, if_neg h3, if_neg h4, if_neg h5]]
              rw [show ([c] : List Char) ++ (escape cs ++ dquote :: rest) =
                c :: (escape cs ++ dquote :: rest) from rfl]
              rw [parseStrBody.eq_def]
              simp only []
              rw [if_neg h1, if_neg h2, ih]
              rfl

/-! ## Lemmas: heads of encoded values -/

theorem encNum_head (m : Int) (e : Nat) :
    ∃ c t, encNum m e = c :: t ∧ (c = Char.ofNat 45 ∨ isDigitCh c = true) := by
  rw [encNum]
  by_cases hm : m < 0
  · rw [if_pos hm]
    exact ⟨Char.ofNat 45, encBody m.natAbs e, by simp, Or.inl rfl⟩
  · rw [if_neg hm]
    obtain ⟨c, t, hh1, hh2⟩ := encBody_head m.natAbs e
    exact ⟨c, t, by simp [hh1], Or.inr hh2⟩

theorem numHead_ne {c : Char} (h : c = Char.ofNat 45 ∨ isDigitCh c = true) :
    c ≠ 'n' ∧ c ≠ 't' ∧ c ≠ 'f' ∧ c ≠ dquote ∧ c ≠ '[' ∧ c ≠ lbrace ∧
      c ≠ ']' ∧ c ≠ rbrace ∧ c ≠ ',' := by
  rcases h with h | h
  · subst h
    refine ⟨?_, ?_, ?_, ?_, ?_, ?_, ?_, ?_, ?_⟩ <;> decide
  · refine ⟨?_, ?_, ?_, ?_, ?_, ?_, ?_, ?_, ?_⟩ <;>
      (intro he; rw [he] at h; exact absurd h (by decide))

theorem dumpsV_head (v : PyVal) :
    ∃ c t, dumpsV v = c :: t ∧ (c ≠ ']' ∧ c ≠ rbrace ∧ c ≠ ',') := by
  cases v with
  | none => exact ⟨'n', _, rfl, by decide⟩
  | bool b =>
    cases b with
    | true => exact ⟨'t', _, rfl, by decide⟩
    | false => exact ⟨'f', _, rfl, by decide⟩
  | num m e =>
    obtain ⟨c, t, hh1, hh2⟩ := encNum_head m e
    have hne := numHead_ne hh2
    exact ⟨c, t, hh1, hne.2.2.2.2.2.2.1, hne.2.2.2.2.2.2.2.1, hne.2.2.2.2.2.2.2.2⟩
  | str s => exact ⟨dquote, _, rfl, by decide⟩
  | list xs => exact ⟨'[', _, rfl, by decide⟩
  | dict kvs => exact ⟨lbrace, _, rfl, by decide⟩

theorem dumpsElems_head {x : List PyVal} (v : PyVal) (vs : List PyVal) (hx : x = v :: vs) :
    ∃ c u, dumpsElems x = c :: u ∧ c ≠ ']' ∧ c ≠ rbrace ∧ c ≠ ',' := by
  subst hx
  obtain ⟨c, t, hct, h1, h2, h3⟩ := dumpsV_head v
  cases vs with
  | nil => exact ⟨c, t, by rw [dumpsElems, hct], h1, h2, h3⟩
  | cons w ws =>
    exact ⟨c, t ++ ',' :: dumpsElems (w :: ws), by rw [dumpsElems, hct]; simp, h1, h2, h3⟩

theorem dumpsPairs_head (kv : String × PyVal) (kvs : List (String × PyVal)) :
    ∃ u, dumpsPairs (kv :: kvs) = dquote :: u := by
  obtain ⟨k, v⟩ := kv
  cases kvs with
  | nil => exact ⟨_, rfl⟩
  | cons p ps => exact ⟨_, rfl⟩

theorem jsizeV_pos (v : PyVal) : 1 ≤ jsizeV v := by
  cases v <;> simp [jsizeV]

/-! ## Lemmas: one-step unfoldings of the parser -/

theorem parseVal_null (f : Nat) (r : List Char) :
    parseVal (f + 1) ('n' :: r) =
      (dropLit ('u' :: 'l' :: 'l' :: []) r).map (fun t => (PyVal.none, t)) := rfl

theorem parseVal_true (f : Nat) (r : List Char) :
    parseVal (f + 1) ('t' :: r) =
      (dropLit ('r' :: 'u' :: 'e' :: []) r).map (fun t => (PyVal.bool true, t)) := rfl

theorem parseVal_false (f : Nat) (r : List Char) :
    parseVal (f + 1) ('f' :: r) =
      (dropLit ('a' :: 'l' :: 's' :: 'e' :: []) r).map (fun t => (PyVal.bool false, t)) := rfl

theorem parseVal_quote (f : Nat) (r : List Char) :
    parseVal (f + 1) (dquote :: r) =
      (parseStrBody r).map (fun p => (PyVal.str (String.mk p.1), p.2)) := rfl

theorem parseVal_bracket (f : Nat) (d : Char) (t : List Char) :
    parseVal (f + 1) ('[' :: d :: t) =
      if d = ']' then some (PyVal.list [], t)
      else (parseElems f (d :: t)).map (fun p => (PyVal.list p.1, p.2)) := rfl

theorem parseVal_brace (f : Nat) (d : Char) (t : List Char) :
    parseVal (f + 1) (lbrace :: d :: t) =
      if d = rbrace then some (PyVal.dict [], t)
      else (parsePairs f (d :: t)).map (fun p => (PyVal.dict p.1, p.2)) := rfl

theorem parseVal_other (f : Nat) {c : Char} (r : List Char) (h1 : c ≠ 'n') (h2 : c ≠ 't')
    (h3 : c ≠ 'f') (h4 : c ≠ dquote) (h5 : c ≠ '[') (h6 : c ≠ lbrace) :
    parseVal (f + 1) (c :: r) = parseNum (c :: r) := by
  rw [parseVal.eq_def]
  simp only []
  rw [if_neg h1, if_neg h2, if_neg h3, if_neg h4, if_neg h5, if_neg h6]

/-! ## The parser inverts the encoder -/

theorem rt_main (fuel : Nat) :
    (∀ (v : PyVal) (rest : List Char), jsizeV v ≤ fuel → RestOk rest →
      parseVal fuel (dumpsV v ++ rest) = some (v, rest)) ∧
    (∀ (xs : List PyVal) (rest : List Char), xs ≠ [] → jsizeL xs ≤ fuel →
      parseElems fuel (dumpsElems xs ++ ']' :: rest) = some (xs, rest)) ∧
    (∀ (kvs : List (String × PyVal)) (rest : List Char), kvs ≠ [] → jsizeP kvs ≤ fuel →
      parsePairs fuel (dumpsPairs kvs ++ rbrace :: rest) = some (kvs, rest)) := by
  induction fuel using Nat.strong_induction_on with
  | _ fuel ih =>
    cases fuel with
    | zero =>
      refine ⟨?_, ?_, ?_⟩
      · intro v rest hj _
        have := jsizeV_pos v
        omega
      · intro xs rest hne hj
        cases xs with
        | nil => exact absurd rfl hne
        | cons x xs =>
          have h1 : jsizeL (x :: xs) = 1 + jsizeV x + jsizeL xs := rfl
          omega
      · intro kvs rest hne hj
        cases kvs with
        | nil => exact absurd rfl hne
        | cons kv kvs =>
          obtain ⟨k, v⟩ := kv
          have h1 : jsizeP ((k, v) :: kvs) = 1 + jsizeV v + jsizeP kvs := rfl
          omega
    | succ f =>
      have ihf := ih f (Nat.lt_succ_self f)
      refine ⟨?_, ?_, ?_⟩
      · intro v rest hj hr
        cases v with
        | none =>
          rw [show dumpsV PyVal.none ++ rest = 'n' :: ('u' :: 'l' :: 'l' :: rest) from rfl,
            parseVal_null,
            show dropLit ('u' :: 'l' :: 'l' :: []) ('u' :: 'l' :: 'l' :: rest) = some rest
              from rfl]
          rfl
        | bool b =>
          cases b with
          | true =>
            rw [show dumpsV (PyVal.bool true) ++ rest = 't' :: ('r' :: 'u' :: 'e' :: rest)
                from rfl,
              parseVal_true,
              show dropLit ('r' :: 'u' :: 'e' :: []) ('r' :: 'u' :: 'e' :: rest) = some rest
                from rfl]
            rfl
          | false =>
            rw [show dumpsV (PyVal.bool false) ++ rest
                = 'f' :: ('a' :: 'l' :: 's' :: 'e' :: rest) from rfl,
              parseVal_false,
              show dropLit ('a' :: 'l' :: 's' :: 'e' :: []) ('a' :: 'l' :: 's' :: 'e' :: rest)
                = some rest from rfl]
            rfl
        | num m e =>
          obtain ⟨c, t, h1, h2⟩ := encNum_head m e
          have hne := numHead_ne h2
          rw [show dumpsV (PyVal.num m e) = encNum m e from rfl, h1, List.cons_append,
            parseVal_other f (t ++ rest) hne.1 hne.2.1 hne.2.2.1 hne.2.2.2.1 hne.2.2.2.2.1
              hne.2.2.2.2.2.1,
            ← List.cons_append, ← h1, parseNum_enc m e hr]
        | str s =>
          rw [show dumpsV (PyVal.str s) ++ rest = dquote :: (escape s.data ++ dquote :: rest)
              from by
            rw [show dumpsV (PyVal.str s) = dquote :: (escape s.data ++ [dquote]) from rfl]
            simp]
          rw [parseVal_quote, parseStrBody_escape]
          rfl
        | list xs =>
          cases xs with
          | nil =>
            rw [show dumpsV (PyVal.list []) ++ rest = '[' :: (']' :: rest) from rfl,
              parseVal_bracket, if_pos rfl]
          | cons x xs =>
            obtain ⟨c, u, hcu, hb1, _, _⟩ := dumpsElems_head x xs rfl
            rw [show dumpsV (PyVal.list (x :: xs)) ++ rest
                = '[' :: (dumpsElems (x :: xs) ++ ']' :: rest) from by
              rw [show dumpsV (PyVal.list (x :: xs))
                  = '[' :: (dumpsElems (x :: xs) ++ [']']) from rfl]
              simp]
            rw [hcu, List.cons_append, parseVal_bracket, if_neg hb1, ← List.cons_append, ← hcu]
            have hjx : jsizeV (PyVal.list (x :: xs)) = 1 + jsizeL (x :: xs) := rfl
            rw [ihf.2.1 (x :: xs) rest (by simp) (by omega)]
            rfl
        | dict kvs =>
          cases kvs with
          | nil =>
            rw [show dumpsV (PyVal.dict []) ++ rest = lbrace :: (rbrace :: rest) from rfl,
              parseVal_brace, if_pos rfl]
          | cons kv kvs =>
            obtain ⟨u, hu⟩ := dumpsPairs_head kv kvs
            rw [show dumpsV (PyVal.dict (kv :: kvs)) ++ rest
                = lbrace :: (dumpsPairs (kv :: kvs) ++ rbrace :: rest) from by
              rw [show dumpsV (PyVal.dict (kv :: kvs))
                  = lbrace :: (dumpsPairs (kv :: kvs) ++ [rbrace]) from rfl]
              simp]
            rw [hu, List.cons_append, parseVal_brace,
              if_neg (show ¬dquote = rbrace from by decide), ← List.cons_append, ← hu]
            have hjx : jsizeV (PyVal.dict (kv :: kvs)) = 1 + jsizeP (kv :: kvs) := rfl
            rw [ihf.2.2 (kv :: kvs) rest (by simp) (by omega)]
            rfl
      · intro xs rest hne hj
        cases xs with
        | nil => exact absurd rfl hne
        | cons x xs =>
          have hjx : jsizeL (x :: xs) = 1 + jsizeV x + jsizeL xs := rfl
          cases xs with
          | nil =>
            rw [show dumpsElems [x] ++ ']' :: rest = dumpsV x ++ ']' :: rest from rfl]
            rw [parseElems.eq_def]
            simp only []
            have hjn : jsizeL ([] : List PyVal) = 0 := rfl
            rw [ihf.1 x (']' :: rest) (by omega) ⟨by decide, by decide⟩]
            rfl
          | cons w ws =>
            have hjw : jsizeL (w :: ws) = 1 + jsizeV w + jsizeL ws := rfl
            rw [show dumpsElems (x :: w :: ws) ++ ']' :: rest
                = dumpsV x ++ (',' :: (dumpsElems (w :: ws) ++ ']' :: rest)) from by
              rw [show dumpsElems (x :: w :: ws) = dumpsV x ++ ',' :: dumpsElems (w :: ws)
                from rfl]
              simp]
            rw [parseElems.eq_def]
            simp only []
            rw [ihf.1 x (',' :: (dumpsElems (w :: ws) ++ ']' :: rest)) (by omega)
              ⟨by decide, by decide⟩]
            simp only []
            rw [ihf.2.1 (w :: ws) rest (by simp) (by omega)]
            rfl
      · intro kvs rest hne hj
        cases kvs with
        | nil => exact absurd rfl hne
        | cons kv kvs =>
          obtain ⟨k, v⟩ := kv
          have hjx : jsizeP ((k, v) :: kvs) = 1 + jsizeV v + jsizeP kvs := rfl
          cases kvs with
          | nil =>
            rw [show dumpsPairs [(k, v)] ++ rbrace :: rest
                = dquote :: (escape k.data ++ dquote :: (':' :: (dumpsV v ++ rbrace :: rest)))
                from by
              rw [show dumpsPairs [(k, v)]
                  = dquote :: (escape k.data ++ dquote :: ':' :: dumpsV v) from rfl]
              simp]
            rw [parsePairs.eq_def]
            simp only []
            simp only [if_true]
            rw [parseStrBody_escape]
            simp only []
            rw [ihf.1 v (rbrace :: rest) (by omega) ⟨by decide, by decide⟩]
            rfl
          | cons p ps =>
            have hjp : jsizeP (p :: ps) = 1 + jsizeV p.2 + jsizeP ps := by
              obtain ⟨a, b⟩ := p
              rfl
            rw [show dumpsPairs ((k, v) :: p :: ps) ++ rbrace :: rest
                = dquote :: (escape k.data ++ dquote ::
                    (':' :: (dumpsV v ++ ',' :: (dumpsPairs (p :: ps) ++ rbrace :: rest))))
                from by
              rw [show dumpsPairs ((k, v) :: p :: ps)
                  = (dquote :: (escape k.data ++ dquote :: ':' :: dumpsV v)) ++
                    ',' :: dumpsPairs (p :: ps) from rfl]
              simp]
            rw [parsePairs.eq_def]
            simp only []
            simp only [if_true]
            rw [parseStrBody_escape]
            simp only []
            rw [ihf.1 v (',' :: (dumpsPairs (p :: ps) ++ rbrace :: rest)) (by omega)
              ⟨by decide, by decide⟩]
            simp only []
            rw [ihf.2.2 (p :: ps) rest (by simp) (by omega)]
            rfl

/-! ## Fuel bound: the encoding is at least as long as the needed fuel -/

theorem jsize_le_dumps_len (n : Nat) :
    (∀ v : PyVal, jsizeV v ≤ n → jsizeV v ≤ (dumpsV v).length) ∧
    (∀ xs : List PyVal, jsizeL xs ≤ n → jsizeL xs ≤ (dumpsElems xs).length + 1) ∧
    (∀ kvs : List (String × PyVal), jsizeP kvs ≤ n →
      jsizeP kvs ≤ (dumpsPairs kvs).length + 1) := by
  induction n using Nat.strong_induction_on with
  | _ n ih =>
    refine ⟨?_, ?_, ?_⟩
    · intro v hv
      cases v with
      | none =>
        rw [show jsizeV PyVal.none = 1 from rfl, show (dumpsV PyVal.none).length = 4 from rfl]
        omega
      | bool b =>
        cases b with
        | true =>
          rw [show jsizeV (PyVal.bool true) = 1 from rfl,
            show (dumpsV (PyVal.bool true)).length = 4 from rfl]
          omega
        | false =>
          rw [show jsizeV (PyVal.bool false) = 1 from rfl,
            show (dumpsV (PyVal.bool false)).length = 5 from rfl]
          omega
      | num m e =>
        obtain ⟨c, t, h1, _⟩ := encNum_head m e
        rw [show jsizeV (PyVal.num m e) = 1 from rfl,
          show dumpsV (PyVal.num m e) = encNum m e from rfl, h1]
        simp
      | str s =>
        rw [show jsizeV (PyVal.str s) = 1 from rfl,
          show dumpsV (PyVal.str s) = dquote :: (escape s.data ++ [dquote]) from rfl]
        simp
      | list xs =>
        have hx : jsizeV (PyVal.list xs) = 1 + jsizeL xs := rfl
        cases n with
        | zero => omega
        | succ nn =>
          have hrec := (ih nn (by omega)).2.1 xs (by omega)
          rw [hx, show dumpsV (PyVal.list xs) = '[' :: (dumpsElems xs ++ [']']) from rfl]
          simp
          omega
      | dict kvs =>
        have hx : jsizeV (PyVal.dict kvs) = 1 + jsizeP kvs := rfl
        cases n with
        | zero => omega
        | succ nn =>
          have hrec := (ih nn (by omega)).2.2 kvs (by omega)
          rw [hx, show dumpsV (PyVal.dict kvs) = lbrace :: (dumpsPairs kvs ++ [rbrace]) from rfl]
          simp
          omega
    · intro xs hxs
      cases xs with
      | nil => rw [show jsizeL ([] : List PyVal) = 0 from rfl]; omega
      | cons x vs =>
        have hx : jsizeL (x :: vs) = 1 + jsizeV x + jsizeL vs := rfl
        cases n with
        | zero => omega
        | succ nn =>
          have hvx := (ih nn (by omega)).1 x (by omega)
          cases vs with
          | nil =>
            rw [hx, show dumpsElems [x] = dumpsV x from rfl]
            rw [show jsizeL ([] : List PyVal) = 0 from rfl]
            omega
          | cons w ws =>
            have hjw : jsizeL (w :: ws) = 1 + jsizeV w + jsizeL ws := rfl
            have hrec := (ih nn (by omega)).2.1 (w :: ws) (by omega)
            rw [hx, show dumpsElems (x :: w :: ws)
              = dumpsV x ++ ',' :: dumpsElems (w :: ws) from rfl]
            simp
            omega
    · intro kvs hkvs
      cases kvs with
      | nil => rw [show jsizeP ([] : List (String × PyVal)) = 0 from rfl]; omega
      | cons kv ps =>
        obtain ⟨k, v⟩ := kv
        have hx : jsizeP ((k, v) :: ps) = 1 + jsizeV v + jsizeP ps := rfl
        cases n with
        | zero => omega
        | succ nn =>
          have hvv := (ih nn (by omega)).1 v (by omega)
          cases ps with
          | nil =>
            rw [hx, show dumpsPairs [(k, v)]
              = dquote :: (escape k.data ++ dquote :: ':' :: dumpsV v) from rfl]
            rw [show jsizeP ([] : List (String × PyVal)) = 0 from rfl]
            simp
            omega
          | cons p pps =>
            have hjp : jsizeP (p :: pps) = 1 + jsizeV p.2 + jsizeP pps := by
              obtain ⟨a, b⟩ := p
              rfl
            have hrec := (ih nn (by omega)).2.2 (p :: pps) (by omega)
            rw [hx, show dumpsPairs ((k, v) :: p :: pps)
              = (dquote :: (escape k.data ++ dquote :: ':' :: dumpsV v)) ++
                ',' :: dumpsPairs (p :: pps) from rfl]
            simp
            omega

/-! ## The decoder round-trips every encoded value -/

theorem loads_dumps (v : PyVal) : loads (dumps v) = some v := by
  have hfuel : jsizeV v ≤ (dumpsV v).length + 1 := by
    have := (jsize_le_dumps_len (jsizeV v)).1 v (le_refl _)
    omega
  have hparse := (rt_main ((dumpsV v).length + 1)).1 v [] hfuel trivial
  rw [List.append_nil] at hparse
  rw [loads.eq_def, show (dumps v).data = dumpsV v from rfl,
    show (dumps v).length = (dumpsV v).length from rfl, hparse]

theorem isWsChar_digit {c : Char} (h : isDigitCh c = true) : isWsChar c = false := by
  have k1 : c ≠ ' ' := fun he => by rw [he] at h; exact absurd h (by decide)
  have k2 : c ≠ '\t' := fun he => by rw [he] at h; exact absurd h (by decide)
  have k3 : c ≠ '\n' := fun he => by rw [he] at h; exact absurd h (by decide)
  have k4 : c ≠ '\r' := fun he => by rw [he] at h; exact absurd h (by decide)
  have k5 : c ≠ Char.ofNat 11 := fun he => by rw [he] at h; exact absurd h (by decide)
  have k6 : c ≠ Char.ofNat 12 := fun he => by rw [he] at h; exact absurd h (by decide)
  simp [isWsChar, k1, k2, k3, k4, k5, k6]

theorem mem_of_getLast?_eq {l : List Char} {c : Char} (h : l.getLast? = some c) : c ∈ l := by
  obtain ⟨hne, heq⟩ := List.mem_getLast?_eq_getLast (by rw [h]; rfl)
  rw [heq]
  exact List.getLast_mem hne

theorem encBody_ne_nil (mag e : Nat) : encBody mag e ≠ [] := by
  obtain ⟨c, t, h1, _⟩ := encBody_head mag e
  rw [h1]
  simp

theorem encNum_last_digit (m : Int) (e : Nat) {c : Char}
    (hc : (encNum m e).getLast? = some c) : isDigitCh c = true := by
  rw [encNum, List.getLast?_append_of_ne_nil _ (encBody_ne_nil m.natAbs e)] at hc
  by_cases he : e = 0
  · rw [encBody, if_pos he] at hc
    exact encDigits_digits _ _ (mem_of_getLast?_eq hc)
  · rw [encBody, if_neg he] at hc
    have hL := padDigits_len m.natAbs e
    have hdlen : ((padDigits m.natAbs e).drop ((padDigits m.natAbs e).length - e)).length
        = e := by
      rw [List.length_drop]
      omega
    have hdneq : (padDigits m.natAbs e).drop ((padDigits m.natAbs e).length - e) ≠ [] := by
      intro hnil
      rw [hnil] at hdlen
      simp at hdlen
      omega
    rw [List.getLast?_append_cons,
      show ('.' :: (padDigits m.natAbs e).drop ((padDigits m.natAbs e).length - e))
        = ['.'] ++ (padDigits m.natAbs e).drop ((padDigits m.natAbs e).length - e) from rfl,
      List.getLast?_append_of_ne_nil _ hdneq] at hc
    exact padDigits_digits m.natAbs e c (List.drop_subset _ _ (mem_of_getLast?_eq hc))

theorem dumpsV_head_not_ws (v : PyVal) {c : Char} (hc : (dumpsV v).head? = some c) :
    isWsChar c = false := by
  cases v with
  | none =>
    rw [show (dumpsV PyVal.none).head? = some 'n' from rfl] at hc
    cases hc
    decide
  | bool b =>
    cases b with
    | true =>
      rw [show (dumpsV (PyVal.bool true)).head? = some 't' from rfl] at hc
      cases hc
      decide
    | false =>
      rw [show (dumpsV (PyVal.bool false)).head? = some 'f' from rfl] at hc
      cases hc
      decide
  | num m e =>
    obtain ⟨c0, t, h1, h2⟩ := encNum_head m e
    rw [show dumpsV (PyVal.num m e) = encNum m e from rfl, h1] at hc
    simp at hc
    subst hc
    rcases h2 with h2 | h2
    · subst h2
      decide
    · exact isWsChar_digit h2
  | str s =>
    rw [show (dumpsV (PyVal.str s)).head? = some dquote from rfl] at hc
    cases hc
    decide
  | list xs =>
    rw [show (dumpsV (PyVal.list xs)).head? = some '[' from rfl] at hc
    cases hc
    decide
  | dict kvs =>
    rw [show (dumpsV (PyVal.dict kvs)).head? = some lbrace from rfl] at hc
    cases hc
    decide

theorem dumpsV_last_not_ws (v : PyVal) {c : Char} (hc : (dumpsV v).getLast? = some c) :
    isWsChar c = false := by
  cases v with
  | none =>
    rw [show (dumpsV PyVal.none).getLast? = some 'l' from rfl] at hc
    cases hc
    decide
  | bool b =>
    cases b with
    | true =>
      rw [show (dumpsV (PyVal.bool true)).getLast? = some 'e' from rfl] at hc
      cases hc
      decide
    | false =>
      rw [show (dumpsV (PyVal.bool false)).getLast? = some 'e' from rfl] at hc
      cases hc
      decide
  | num m e =>
    rw [show dumpsV (PyVal.num m e) = encNum m e from rfl] at hc
    exact isWsChar_digit (encNum_last_digit m e hc)
  | str s =>
    rw [show dumpsV (PyVal.str s) = (dquote :: escape s.data) ++ [dquote] from rfl,
      List.getLast?_concat] at hc
    cases hc
    decide
  | list xs =>
    rw [show dumpsV (PyVal.list xs) = ('[' :: dumpsElems xs) ++ [']'] from rfl,
      List.getLast?_concat] at hc
    cases hc
    decide
  | dict kvs =>
    rw [show dumpsV (PyVal.dict kvs) = (lbrace :: dumpsPairs kvs) ++ [rbrace] from rfl,
      List.getLast?_concat] at hc
    cases hc
    decide

theorem dropWhileWs_id {l : List Char} (h : ∀ c, l.head? = some c → isWsChar c = false) :
    l.dropWhile isWsChar = l := by
  cases l with
  | nil => rfl
  | cons c t => simp [List.dropWhile_cons, h c rfl]

theorem pyStripList_id {cs : List Char} (h1 : ∀ c, cs.head? = some c → isWsChar c = false)
    (h2 : ∀ c, cs.getLast? = some c → isWsChar c = false) : pyStripList cs = cs := by
  rw [pyStripList, dropWhileWs_id h1]
  rw [dropWhileWs_id (fun c hc => h2 c (by rwa [List.head?_reverse] at hc))]
  exact List.reverse_reverse cs

theorem pyStrip_dumps (v : PyVal) : pyStrip (dumps v) = dumps v := by
  rw [pyStrip, show (dumps v).data = dumpsV v from rfl,
    pyStripList_id (fun c hc => dumpsV_head_not_ws v hc)
      (fun c hc => dumpsV_last_not_ws v hc)]
  rfl

theorem parse_single_dumps (v : PyVal) : parse_tool_result (some [some (dumps v)]) = v := by
  rw [parse_tool_result.eq_def]
  simp only []
  rw [show List.filterMap id [some (dumps v)] = [dumps v] from rfl,
    show pyJoin "\n" [dumps v] = dumps v from rfl, pyStrip_dumps, loads_dumps]

/-! ## Dispatcher lemmas -/

theorem toolBranches_state (o : Oracle) (st : Option String) (p : String) :
    (toolBranches o st p).state = st := by
  rw [toolBranches]
  simp only []
  repeat' split
  all_goals rfl

theorem processClause_def (o : Oracle) (st : Option String) (part : String) :
    processClause o st part =
      (if pyLower part = "hi" ∨ pyLower part = "hello" ∨ pyLower part = "hey" then
        ⟨st, some greetingMsg, []⟩
      else
        match findSetName (pyLower part).data with
        | some w =>
          ⟨some (pyCapitalize (String.mk w)),
            some ("Nice to meet you, " ++ pyCapitalize (String.mk w) ++ "! 😊"), []⟩
        | Option.none =>
          match st with
          | some nm =>
            if containsList "my name".data (pyLower part).data then
              ⟨st, some ("Your name is " ++ nm ++ "."), []⟩
            else toolBranches o st (pyLower part)
          | Option.none => toolBranches o st (pyLower part)) := rfl

/-- C9: Conversation state (the remembered user name) is written only by the
SetName intent: any clause whose lowered text does not match the
`my name is (\w+)` pattern leaves the stored name unchanged, whatever the
oracle replies and whatever branch renders the clause. -/
theorem state_written_only_by_set_name (o : Oracle) (st : Option String) (part : String)
    (h : findSetName (pyLower part).data = Option.none) :
    (processClause o st part).state = st := by
  rw [processClause_def]
  by_cases hg : pyLower part = "hi" ∨ pyLower part = "hello" ∨ pyLower part = "hey"
  · rw [if_pos hg]
  · rw [if_neg hg, h]
    cases st with
    | some nm =>
      by_cases hq : containsList "my name".data (pyLower part).data = true
      · simp only [hq, if_true]
      · simp only [hq]
        simp only [Bool.false_eq_true, if_false]
        exact toolBranches_state o (some nm) (pyLower part)
    | none => exact toolBranches_state o Option.none (pyLower part)

/-- Witness for `state_written_only_by_set_name` at a concrete clause. -/
theorem state_written_only_by_set_name_witness :
    (processClause (fun _ => Option.none) (some "Asha") "weather in pune").state
      = some "Asha" :=
  state_written_only_by_set_name (fun _ => Option.none) (some "Asha") "weather in pune"
    (by decide)

/-- C8: decoding an absent reply envelope, or one with no content fragments,
yields the explicit `PyVal.none` marker ("no result"), which is a different
value from the empty string. -/
theorem empty_envelope_no_result_marker :
    parse_tool_result Option.none = PyVal.none ∧
    parse_tool_result (some []) = PyVal.none ∧
    PyVal.none ≠ PyVal.str "" := by
  refine ⟨rfl, rfl, ?_⟩
  intro h
  exact PyVal.noConfusion h

/-- C10: `count_vowels` returns exactly the lower-cased input characters that
are vowels, in order of occurrence (an order-preserving sublist of the
lowered text), and `vowel_count` is the length of that list. -/
theorem count_vowels_spec (t : String) :
    (count_vowels t).vowel_count = (count_vowels t).vowels.length ∧
    (count_vowels t).vowels = (pyLower t).data.filter (fun ch => vowelChars.contains ch) ∧
    (count_vowels t).vowels.Sublist (pyLower t).data ∧
    ∀ ch ∈ (count_vowels t).vowels, vowelChars.contains ch = true := by
  refine ⟨rfl, rfl, List.filter_sublist _, ?_⟩
  intro ch hch
  exact List.of_mem_filter hch

/-- Witness for `count_vowels_spec` at the concrete input "Likhita". -/
theorem count_vowels_spec_witness :
    (count_vowels "Likhita").vowel_count = (count_vowels "Likhita").vowels.length ∧
    vowelChars.contains 'i' = true :=
  ⟨(count_vowels_spec "Likhita").1, (count_vowels_spec "Likhita").2.2.2 'i' (by decide)⟩

/-! ## Well-shaped replies render without raising -/

theorem allStrs_isSome {xs : List PyVal} (h : xs.all isStrVal = true) :
    (allStrs xs).isSome := by
  induction xs with
  | nil => rfl
  | cons x xs ih =>
    rw [List.all_cons, Bool.and_eq_true] at h
    obtain ⟨h1, h2⟩ := h
    cases x with
    | str s =>
      obtain ⟨l, hl⟩ := Option.isSome_iff_exists.1 (ih h2)
      rw [allStrs, hl]
      rfl
    | none => exact absurd h1 (by decide)
    | bool b => exact absurd h1 (by simp [isStrVal])
    | num m e => exact absurd h1 (by simp [isStrVal])
    | list l => exact absurd h1 (by simp [isStrVal])
    | dict kvs => exact absurd h1 (by simp [isStrVal])

theorem pyJoinVal_isSome {vs : PyVal} (h : vowelsJoinable vs = true) (sep : String) :
    (pyJoinVal sep vs).isSome := by
  cases vs with
  | list xs =>
    rw [vowelsJoinable] at h
    obtain ⟨l, hl⟩ := Option.isSome_iff_exists.1 (allStrs_isSome h)
    rw [pyJoinVal, hl]
    rfl
  | none => exact absurd h (by decide)
  | bool b => exact absurd h (by simp [vowelsJoinable])
  | num m e => exact absurd h (by simp [vowelsJoinable])
  | str s => exact absurd h (by simp [vowelsJoinable])
  | dict kvs => exact absurd h (by simp [vowelsJoinable])

theorem weatherRender_isSome {city : String} {data : PyVal}
    (h : replyOk (ToolReq.getWeather city) data = true) :
    (weatherRender city data).isSome := by
  cases data with
  | dict kvs =>
    simp [replyOk] at h
    obtain ⟨h1, h2⟩ := h
    obtain ⟨t, ht⟩ := Option.isSome_iff_exists.1 h1
    obtain ⟨w, hw⟩ := Option.isSome_iff_exists.1 h2
    rw [weatherRender, ht, hw]
    rfl
  | none => rfl
  | bool b => rfl
  | num m e => rfl
  | str s => rfl
  | list xs => rfl

theorem vowelRender_isSome {word : String} {data : PyVal}
    (h : replyOk (ToolReq.countVowels word) data = true) :
    (vowelRender word data).isSome := by
  rw [show replyOk (ToolReq.countVowels word) data
      = ((pyGet data "vowel_count").isSome &&
        (match pyGet data "vowels" with
         | some vs => vowelsJoinable vs
         | Option.none => false)) from rfl, Bool.and_eq_true] at h
  obtain ⟨h1, h2⟩ := h
  obtain ⟨cnt, hcnt⟩ := Option.isSome_iff_exists.1 h1
  cases hv : pyGet data "vowels" with
  | none =>
    rw [hv] at h2
    exact absurd h2 (by decide)
  | some vs =>
    rw [hv] at h2
    have h2v : vowelsJoinable vs = true := h2
    obtain ⟨j, hj⟩ := Option.isSome_iff_exists.1 (pyJoinVal_isSome h2v ", ")
    rw [vowelRender, hcnt, hv]
    simp only []
    rw [hj]
    rfl

theorem sysRender_isSome {p : String} {data : PyVal}
    (h : replyOk (ToolReq.systemDiagnostics p) data = true) :
    (sysRender p data).isSome := by
  have hall : ∀ k ∈ sysKeys, (pyGet data k).isSome = true := by
    rw [show replyOk (ToolReq.systemDiagnostics p) data
        = sysKeys.all (fun k => (pyGet data k).isSome) from rfl, List.all_eq_true] at h
    exact h
  obtain ⟨v1, k1⟩ := Option.isSome_iff_exists.1 (hall "cpu_usage_percent" (by decide))
  obtain ⟨v2, k2⟩ := Option.isSome_iff_exists.1 (hall "cpu_physical_cores" (by decide))
  obtain ⟨v3, k3⟩ := Option.isSome_iff_exists.1 (hall "cpu_logical_cores" (by decide))
  obtain ⟨v4, k4⟩ := Option.isSome_iff_exists.1 (hall "memory_total_gb" (by decide))
  obtain ⟨v5, k5⟩ := Option.isSome_iff_exists.1 (hall "memory_used_gb" (by decide))
  obtain ⟨v6, k6⟩ := Option.isSome_iff_exists.1 (hall "memory_free_gb" (by decide))
  obtain ⟨v7, k7⟩ := Option.isSome_iff_exists.1 (hall "memory_usage_percent" (by decide))
  obtain ⟨v8, k8⟩ := Option.isSome_iff_exists.1 (hall "disk_total_gb" (by decide))
  obtain ⟨v9, k9⟩ := Option.isSome_iff_exists.1 (hall "disk_used_gb" (by decide))
  obtain ⟨v10, k10⟩ := Option.isSome_iff_exists.1 (hall "disk_free_gb" (by decide))
  obtain ⟨v11, k11⟩ := Option.isSome_iff_exists.1 (hall "os" (by decide))
  obtain ⟨v12, k12⟩ := Option.isSome_iff_exists.1 (hall "os_version" (by decide))
  obtain ⟨v13, k13⟩ := Option.isSome_iff_exists.1 (hall "architecture" (by decide))
  obtain ⟨v14, k14⟩ := Option.isSome_iff_exists.1 (hall "system_uptime_hours" (by decide))
  rw [sysRender]
  split_ifs <;>
    simp [k1, k2, k3, k4, k5, k6, k7, k8, k9, k10, k11, k12, k13, k14]

theorem replyOk_weather_allKeys (c : String) :
    replyOk (ToolReq.getWeather c) allKeysDict = true := by
  have h : replyOk (ToolReq.getWeather "x") allKeysDict = true := by decide
  exact h

theorem replyOk_vowels_allKeys (c : String) :
    replyOk (ToolReq.countVowels c) allKeysDict = true := by
  have h : replyOk (ToolReq.countVowels "x") allKeysDict = true := by decide
  exact h

theorem replyOk_system_allKeys (c : String) :
    replyOk (ToolReq.systemDiagnostics c) allKeysDict = true := by
  have h : replyOk (ToolReq.systemDiagnostics "x") allKeysDict = true := by decide
  exact h

theorem goodOracle_allKeys : goodOracle allKeysOracle := by
  intro req
  rw [show allKeysOracle req = some [some (dumps allKeysDict)] from rfl, parse_single_dumps]
  cases req with
  | getWeather c => exact replyOk_weather_allKeys c
  | countVowels c => exact replyOk_vowels_allKeys c
  | systemDiagnostics c => exact replyOk_system_allKeys c

theorem processClause_reply_isSome {o : Oracle} (hg : goodOracle o) (st : Option String)
    (part : String) : (processClause o st part).reply.isSome := by
  rw [processClause_def]
  by_cases hgr : pyLower part = "hi" ∨ pyLower part = "hello" ∨ pyLower part = "hey"
  · rw [if_pos hgr]
    rfl
  · rw [if_neg hgr]
    cases hsn : findSetName (pyLower part).data with
    | some w => rfl
    | none =>
      suffices htb : (toolBranches o st (pyLower part)).reply.isSome by
        cases st with
        | some nm =>
          by_cases hq : containsList "my name".data (pyLower part).data = true
          · simp only [hq, if_true]
            rfl
          · simp only [hq, Bool.false_eq_true, if_false]
            exact htb
        | none => exact htb
      rw [toolBranches]
      simp only []
      by_cases hw : containsAny (pyLower part) weatherKws = true
      · rw [if_pos hw]
        cases hc : extract_city (pyLower part) with
        | none => rfl
        | some city =>
          simp only []
          by_cases hce : city = ""
          · rw [if_pos hce]
            rfl
          · rw [if_neg hce]
            exact weatherRender_isSome (hg (ToolReq.getWeather city))
      · rw [if_neg hw]
        by_cases hv : containsList "vowel".data (pyLower part).data = true
        · rw [if_pos hv]
          by_cases hwd : String.mk (pyStripList (vowelScrub (pyLower part).data)) = ""
          · rw [if_pos hwd]
            rfl
          · rw [if_neg hwd]
            exact vowelRender_isSome (hg (ToolReq.countVowels _))
        · rw [if_neg hv]
          by_cases hs : containsAny (pyLower part) systemKws = true
          · rw [if_pos hs]
            exact sysRender_isSome (hg (ToolReq.systemDiagnostics _))
          · rw [if_neg hs]
            rfl

theorem processParts_good {o : Oracle} (hg : goodOracle o) :
    ∀ (parts : List String) (st : Option String),
      ∃ rs : List String, (processParts o st parts).replies = some rs ∧
        rs.length = parts.length := by
  intro parts
  induction parts with
  | nil => exact fun st => ⟨[], rfl, rfl⟩
  | cons part rest ihp =>
    intro st
    obtain ⟨r, hr⟩ := Option.isSome_iff_exists.1 (processClause_reply_isSome hg st part)
    obtain ⟨rs, hrs, hlen⟩ := ihp (processClause o st part).state
    refine ⟨r :: rs, ?_, by simp [hlen]⟩
    rw [processParts]
    simp only []
    rw [hr]
    simp only []
    rw [hrs]
    rfl

/-! ## Claim theorems: routing and extraction -/

/-- C1 counterexample: the clause "weather in Hydrabad" invokes `get_weather`
with the city "hydrabad" exactly as extracted from the lowered clause — it is
neither title-cased nor corrected to "Hyderabad" before forwarding. -/
theorem hydrabad_not_corrected :
    (processClause (fun _ => Option.none) Option.none "weather in Hydrabad").calls
      = [ToolReq.getWeather "hydrabad"] ∧
    ("hydrabad" : String) ≠ "Hyderabad" := ⟨by decide, by decide⟩

/-- C1 amended: for every Weather-classified clause from which a city is
extracted, the extracted city is forwarded to `get_weather` verbatim (no
misspelling-correction table exists and no title-casing happens before the
call; title-casing occurs only in the rendered reply). -/
theorem weather_city_forwarded_verbatim (o : Oracle) (st : Option String) (part : String)
    (city : String)
    (hsn : findSetName (pyLower part).data = Option.none)
    (hmn : containsList "my name".data (pyLower part).data = false)
    (hw : containsAny (pyLower part) weatherKws = true)
    (hc : extract_city (pyLower part) = some city) (hcne : city ≠ "") :
    (processClause o st part).calls = [ToolReq.getWeather city] := by
  have hgr : ¬(pyLower part = "hi" ∨ pyLower part = "hello" ∨ pyLower part = "hey") := by
    rintro (h | h | h) <;> (rw [h] at hw; exact absurd hw (by decide))
  rw [processClause_def, if_neg hgr, hsn]
  have htb : (toolBranches o st (pyLower part)).calls = [ToolReq.getWeather city] := by
    rw [toolBranches]
    simp only []
    rw [if_pos hw, hc]
    simp only []
    rw [if_neg hcne]
  cases st with
  | some nm =>
    simp only [hmn, Bool.false_eq_true, if_false]
    exact htb
  | none => exact htb

/-- Witness for `weather_city_forwarded_verbatim` at the concrete clause
"weather in Hydrabad". -/
theorem weather_city_forwarded_verbatim_witness :
    (processClause (fun _ => Option.none) (some "Dana") "weather in Hydrabad").calls
      = [ToolReq.getWeather "hydrabad"] :=
  weather_city_forwarded_verbatim (fun _ => Option.none) (some "Dana") "weather in Hydrabad"
    "hydrabad" (by decide) (by decide) (by decide) (by decide) (by decide)

/-- C2 counterexample: with no stored name, the clause "what is my name"
(which contains "my name" and does not match SetName) is NOT classified
QueryName: it falls through to the generic Unknown-intent help string, and
no name-specific "don't know yet" reply exists in the code. -/
theorem query_name_without_state_generic_fallback :
    (processClause (fun _ => Option.none) Option.none "what is my name").reply
      = some fallbackMsg ∧
    (processClause (fun _ => Option.none) Option.none "what is my name").state
      = Option.none := ⟨by decide, by decide⟩

/-- C2 amended: a clause containing "my name" that does not match the SetName
pattern is answered with the stored name only when a name is already stored;
the guard `user_name and "my name" in p` requires non-empty state. -/
theorem query_name_requires_stored_name (o : Oracle) (nm : String) (part : String)
    (hmn : containsList "my name".data (pyLower part).data = true)
    (hsn : findSetName (pyLower part).data = Option.none) :
    (processClause o (some nm) part).reply = some ("Your name is " ++ nm ++ ".") ∧
    (processClause o (some nm) part).state = some nm := by
  have hgr : ¬(pyLower part = "hi" ∨ pyLower part = "hello" ∨ pyLower part = "hey") := by
    rintro (h | h | h) <;> (rw [h] at hmn; exact absurd hmn (by decide))
  rw [processClause_def, if_neg hgr, hsn]
  constructor <;> simp [hmn]

/-- Witness for `query_name_requires_stored_name` at a concrete clause. -/
theorem query_name_requires_stored_name_witness :
    (processClause (fun _ => Option.none) (some "Asha") "where is my name").reply
      = some "Your name is Asha." :=
  (query_name_requires_stored_name (fun _ => Option.none) "Asha" "where is my name"
    (by decide) (by decide)).1

/-- C3: a tool reply that decodes to a plain string crashes the vowel-count
and system-diagnostics rendering paths (unconditional keyed access raises),
while the weather path branches on the decoded shape and renders it. -/
theorem string_reply_crashes_vowel_and_system_paths :
    (processClause (fun _ => some [some "oops"]) Option.none "vowels in abc").reply
      = Option.none ∧
    (processClause (fun _ => some [some "oops"]) Option.none "cpu usage").reply
      = Option.none ∧
    (processClause (fun _ => some [some "oops"]) Option.none "weather in pune").reply
      = some "Weather info: oops" := ⟨by decide, by decide, by decide⟩

/-- C4 counterexample: "i am asha" does not trigger SetName (only
`my name is (\w+)` is implemented): no name is stored and the clause gets
the generic fallback. -/
theorem i_am_does_not_set_name :
    (processClause (fun _ => Option.none) Option.none "i am asha").reply = some fallbackMsg ∧
    (processClause (fun _ => Option.none) Option.none "i am asha").state = Option.none :=
  ⟨by decide, by decide⟩

theorem findSetName_isSome_iff (cs : List Char) :
    (findSetName cs).isSome ↔
      ∃ pre rest, cs = pre ++ setNamePat ++ rest ∧ rest.takeWhile wordCh ≠ [] := by
  induction cs with
  | nil =>
    constructor
    · intro h
      rw [show findSetName [] = Option.none from rfl] at h
      exact absurd h (by decide)
    · rintro ⟨pre, rest, h1, h2⟩
      exfalso
      have hlen := congrArg List.length h1
      simp only [List.length_nil, List.length_append] at hlen
      rw [show setNamePat.length = 11 from rfl] at hlen
      omega
  | cons c cs ih =>
    rw [findSetName]
    cases hs : setNameAt (c :: cs) with
    | some w =>
      simp only [Option.isSome_some, true_iff]
      rw [setNameAt] at hs
      cases hd : dropLit setNamePat (c :: cs) with
      | none => rw [hd] at hs; exact absurd hs (by simp)
      | some rest' =>
        rw [hd] at hs
        simp only [] at hs
        by_cases hwr : rest'.takeWhile wordCh = []
        · rw [if_pos hwr] at hs
          exact absurd hs (by simp)
        · exact ⟨[], rest', by simpa using dropLit_eq_append hd, hwr⟩
    | none =>
      simp only []
      rw [ih]
      constructor
      · rintro ⟨pre, rest, h1, h2⟩
        exact ⟨c :: pre, rest, by rw [h1]; rfl, h2⟩
      · rintro ⟨pre, rest, h1, h2⟩
        cases pre with
        | nil =>
          exfalso
          simp only [List.nil_append] at h1
          rw [setNameAt, h1, dropLit_self_append] at hs
          simp only [] at hs
          rw [if_neg h2] at hs
          exact Option.noConfusion hs
        | cons d pre' =>
          injection h1 with hcd hcs
          exact ⟨pre', rest, hcs, h2⟩

/-- C4 amended: a clause is classified SetName exactly when its lowered text
contains the literal "my name is " immediately followed by a word character
("i am" / "iam" do NOT trigger it); on a match the captured maximal word
token is stored capitalized, and the greeting reply is sent. -/
theorem set_name_iff_my_name_is (o : Oracle) (st : Option String) (part : String) :
    ((findSetName (pyLower part).data).isSome ↔
      ∃ pre rest, (pyLower part).data = pre ++ setNamePat ++ rest ∧
        rest.takeWhile wordCh ≠ []) ∧
    (∀ w, findSetName (pyLower part).data = some w →
      (processClause o st part).state = some (pyCapitalize (String.mk w)) ∧
      (processClause o st part).reply =
        some ("Nice to meet you, " ++ pyCapitalize (String.mk w) ++ "! 😊")) := by
  refine ⟨findSetName_isSome_iff _, ?_⟩
  intro w hw
  have hgr : ¬(pyLower part = "hi" ∨ pyLower part = "hello" ∨ pyLower part = "hey") := by
    rintro (h | h | h) <;>
      (rw [h] at hw; exact Option.noConfusion ((by decide :
        findSetName (pyLower "hi").data = Option.none) ▸ hw))
  rw [processClause_def, if_neg hgr, hw]
  exact ⟨rfl, rfl⟩

/-- Witness for `set_name_iff_my_name_is`: "my name is asha" stores "Asha". -/
theorem set_name_iff_my_name_is_witness :
    (processClause (fun _ => Option.none) Option.none "my name is asha").state
      = some "Asha" :=
  ((set_name_iff_my_name_is (fun _ => Option.none) Option.none "my name is asha").2
    "asha".data (by decide)).1

/-! ## Claim theorems: turn processing and decoding -/

/-- C5 counterexample: in the two-clause turn "vowels in abc, hi", a vowel
tool reply that decodes to the plain string "oops" raises inside the first
clause and aborts the whole turn — the sibling clause "hi" is never
rendered and the turn produces no output at all, instead of one rendered
string per clause. -/
theorem vowel_crash_aborts_sibling_clauses :
    (segmentClauses "vowels in abc, hi").length = 2 ∧
    (processTurn (fun _ => some [some "oops"]) Option.none "vowels in abc, hi").replies
      = Option.none := ⟨by decide, by decide⟩

/-- C5 amended: provided every decoded reply has the record shape its
renderer dereferences (`goodOracle` — the weather path alone also accepts a
plain string), every clause of a turn produces exactly one rendered string,
and the turn's output is the blank-line join of the per-clause strings in
original clause order. -/
theorem turn_joins_one_reply_per_clause {o : Oracle} (hg : goodOracle o)
    (st : Option String) (input : String) :
    ∃ rs : List String, (processTurn o st input).replies = some rs ∧
      rs.length = (segmentClauses input).length ∧
      turnOutput (processTurn o st input) = some (pyJoin "\n\n" rs) := by
  obtain ⟨rs, h1, h2⟩ := processParts_good hg (segmentClauses input) st
  refine ⟨rs, h1, h2, ?_⟩
  rw [turnOutput, show processTurn o st input
    = processParts o st (segmentClauses input) from rfl, h1]
  rfl

/-- Witness for `turn_joins_one_reply_per_clause` with the all-keys oracle. -/
theorem turn_joins_one_reply_per_clause_witness :
    ∃ rs : List String, (processTurn allKeysOracle Option.none "hi").replies = some rs ∧
      rs.length = (segmentClauses "hi").length ∧
      turnOutput (processTurn allKeysOracle Option.none "hi") = some (pyJoin "\n\n" rs) :=
  turn_joins_one_reply_per_clause goodOracle_allKeys Option.none "hi"

/-- C6 counterexample: a non-JSON envelope whose text has surrounding
whitespace does NOT decode to the original raw string — the decoder strips
it first ("  hello  " decodes to "hello"). -/
theorem decoder_strips_raw_text :
    parse_tool_result (some [some "  hello  "]) = PyVal.str "hello" ∧
    ("hello" : String) ≠ "  hello  " := ⟨rfl, by decide⟩

/-- C6 amended: the decoder round-trips every encoded value exactly — an
envelope whose text is the JSON encoding of a value decodes back to that
value, with no loss on the exact-decimal numeric fields — and an envelope
whose stripped text is not JSON-shaped decodes to the whitespace-stripped
text (not the raw original). -/
theorem decoder_round_trip :
    (∀ v : PyVal, parse_tool_result (some [some (dumps v)]) = v) ∧
    (∀ s : String, loads (pyStrip s) = Option.none →
      parse_tool_result (some [some s]) = PyVal.str (pyStrip s)) := by
  constructor
  · exact parse_single_dumps
  · intro s hs
    rw [parse_tool_result.eq_def]
    simp only []
    rw [show List.filterMap id [some s] = [s] from rfl,
      show pyJoin "\n" [s] = s from rfl, hs]

/-- Witness for `decoder_round_trip`: a one-field record round-trips, and a
non-JSON text decodes to the (here already stripped) string itself. -/
theorem decoder_round_trip_witness :
    parse_tool_result (some [some (dumps (PyVal.dict [("temperature_c", PyVal.num 235 1)]))])
      = PyVal.dict [("temperature_c", PyVal.num 235 1)] ∧
    parse_tool_result (some [some "oops"]) = PyVal.str "oops" :=
  ⟨decoder_round_trip.1 (PyVal.dict [("temperature_c", PyVal.num 235 1)]),
    decoder_round_trip.2 "oops" rfl⟩

/-- C7 counterexample: the empty utterance contains no comma, yet the
segmenter returns no clause at all rather than exactly one clause equal to
the trimmed input. -/
theorem empty_utterance_yields_no_clause :
    segmentClauses "" = [] ∧ ([] : List String) ≠ [""] := ⟨rfl, by decide⟩

theorem splitCommaList_no_comma {cs : List Char} (h : ∀ c ∈ cs, c ≠ ',') :
    splitCommaList cs = [cs] := by
  induction cs with
  | nil => rfl
  | cons c cs ih =>
    rw [splitCommaList.eq_def]
    simp only []
    rw [if_neg (h c (by simp)), ih (fun d hd => h d (by simp [hd]))]

/-- C7 amended: for every utterance with no comma whose stripped text is
non-empty, the segmenter returns exactly one clause equal to the stripped
input; a whitespace-only utterance instead yields no clauses.  (Splitting on
commas, stripping each segment, and dropping empty segments is
`segmentClauses` itself, a pure function of the input.) -/
theorem segment_no_comma_identity (s : String) (h : ∀ c ∈ s.data, c ≠ ',')
    (hne : pyStrip s ≠ "") : segmentClauses s = [pyStrip s] := by
  rw [segmentClauses, splitCommaList_no_comma h]
  simp only [List.map]
  rw [show String.mk (pyStripList s.data) = pyStrip s from rfl]
  simp [hne]

/-- Witness for `segment_no_comma_identity` at a concrete utterance. -/
theorem segment_no_comma_identity_witness :
    segmentClauses " hello there " = ["hello there"] :=
  segment_no_comma_identity " hello there " (by decide) (by decide)

end MCPAgent
